import Mathlib

/-!
Verification of the ETL pipeline in `etl_run.py`.

The embedding models pandas DataFrames as a list of column names together
with rows given as association lists from column name to string cell value
(all input fields are read as text, `dtype=str`).  Amounts are modelled as
rationals produced by a decimal parser (`pd.to_numeric`), timestamps as UTC
instants in seconds since the Unix epoch produced by an ISO-8601 parser
(`pd.to_datetime(..., utc=True)`), and the relational sink as keyed
association lists with SQL `MERGE` modelled as a keyed upsert.
-/

/-- Equality of `Except` values is decidable when it is on both sides. -/
instance {ε α : Type} [DecidableEq ε] [DecidableEq α] : DecidableEq (Except ε α) :=
  fun a b =>
  match a, b with
  | .error e, .error f =>
    if h : e = f then .isTrue (by rw [h])
    else .isFalse (fun hc => h (by injection hc))
  | .ok x, .ok y =>
    if h : x = y then .isTrue (by rw [h])
    else .isFalse (fun hc => h (by injection hc))
  | .error _, .ok _ => .isFalse (fun hc => Except.noConfusion hc)
  | .ok _, .error _ => .isFalse (fun hc => Except.noConfusion hc)

/-- Strip surrounding whitespace (`str.strip()` of Python / `.str.strip()`
of pandas), computed on the character list. -/
def strTrim (s : String) : String :=
  ⟨((s.data.dropWhile Char.isWhitespace).reverse.dropWhile Char.isWhitespace).reverse⟩

/-- A DataFrame row: association list from column name to string value.
A missing cell reads back as the string "nan", matching
`astype(str)` applied to a pandas NaN. -/
abbrev Row : Type := List (String × String)

/-- A pandas DataFrame holding untyped text fields. -/
structure DataFrame where
  cols : List String
  rows : List Row
deriving DecidableEq

/-- Read one cell of a row; missing cells behave like pandas NaN
after `astype(str)`, i.e. the string "nan". -/
def getCell (r : Row) (c : String) : String := (r.lookup c).getD "nan"

/-- Trim a whole row, keys and values (models the combined effect of
column-name stripping and `astype(str).str.strip()`). -/
def stripRow (r : Row) : Row := r.map (fun p => (strTrim p.1, strTrim p.2))

/-- Models `merchants.columns = [c.strip() for c in merchants.columns]`
(etl_run.py lines 68-69): strip the column names only. -/
def stripColNames (df : DataFrame) : DataFrame :=
  ⟨df.cols.map strTrim, df.rows.map (List.map (fun p => (strTrim p.1, p.2)))⟩

/-- Models `df[c] = df[c].astype(str).str.strip()` for every column
(etl_run.py lines 83-87): strip the cell values. -/
def stripCellValues (df : DataFrame) : DataFrame :=
  ⟨df.cols, df.rows.map (List.map (fun p => (p.1, strTrim p.2)))⟩

/-- Required merchant columns (etl_run.py line 71). -/
def requiredMerchCols : List String := ["merchant_id", "merchant_name"]

/-- Required transaction columns (etl_run.py line 72). -/
def requiredTxnCols : List String :=
  ["transaction_id", "merchant_id", "txn_ts_utc", "amount", "status"]

/-- Models `required - set(columns)`: the required columns absent from `cols`. -/
def missingCols (required : List String) (cols : List String) : List String :=
  required.filter (fun c => decide (c ∉ cols))

/-- The fatal errors of the run.  `schemaError file missing` models the
`ValueError(f"... missing columns: {missing}")` raised by
`validate_and_clean` — the spec's SchemaError — carrying the offending
file and the set of missing column names. -/
inductive EtlError where
  | schemaError (file : String) (missing : List String)
deriving DecidableEq

/-- The `RunStats` dataclass of etl_run.py. -/
structure RunStats where
  txns_total : ℕ
  txns_after_dedupe : ℕ
  txns_valid : ℕ
  txns_rejected : ℕ
  merchants_loaded : ℕ
  daily_rows : ℕ
  fact_rows_upserted : ℕ
deriving DecidableEq

/-! ### Numeric parsing (`pd.to_numeric(..., errors="coerce")`) -/

/-- Value of a digit string (most significant first). -/
def digitsVal (l : List Char) : ℕ := l.foldl (fun a c => a * 10 + (c.toNat - 48)) 0

/-- Split a leading sign character. Returns (isNegative, rest). -/
def splitSign : List Char → Bool × List Char
  | '-' :: cs => (true, cs)
  | '+' :: cs => (false, cs)
  | cs => (false, cs)

/-- Parse an unsigned decimal mantissa `digits[.digits]`; at least one digit
must be present. Returns the value and the unconsumed characters. -/
def parseMantissa (cs : List Char) : Option (ℚ × List Char) :=
  let ip := cs.span Char.isDigit
  match ip.2 with
  | '.' :: rest2 =>
    let fp := rest2.span Char.isDigit
    if ip.1.isEmpty && fp.1.isEmpty then none
    else some ((digitsVal ip.1 : ℚ) + (digitsVal fp.1 : ℚ) / (10 : ℚ) ^ fp.1.length, fp.2)
  | _ => if ip.1.isEmpty then none else some ((digitsVal ip.1 : ℚ), ip.2)

/-- Scale a mantissa by a signed power of ten. -/
def applyExp (m : ℚ) (eneg : Bool) (e : ℕ) : ℚ :=
  if eneg then m / (10 : ℚ) ^ e else m * (10 : ℚ) ^ e

/-- Parse the exponent tail of scientific notation and apply it to `m`. -/
def parseExpApply (m : ℚ) (es : List Char) : Option ℚ :=
  let q := splitSign es
  let d := q.2.span Char.isDigit
  if d.1.isEmpty then none
  else if d.2.isEmpty then some (applyExp m q.1 (digitsVal d.1)) else none

/-- Models `pd.to_numeric(s, errors="coerce")` on a trimmed text field: an optional
sign, a decimal mantissa and an optional exponent; anything else coerces to
NaN, i.e. `none`. -/
def parseAmount (s : String) : Option ℚ :=
  let p := splitSign s.toList
  match parseMantissa p.2 with
  | none => none
  | some (m, rest) =>
    let signed : ℚ := if p.1 then -m else m
    match rest with
    | [] => some signed
    | 'e' :: es => parseExpApply signed es
    | 'E' :: es => parseExpApply signed es
    | _ => none

/-! ### Timestamp parsing (`pd.to_datetime(..., errors="coerce", utc=True)`) -/

/-- Parse exactly two digits. -/
def d2 : List Char → Option (ℕ × List Char)
  | a :: b :: rest =>
    if a.isDigit && b.isDigit then some (digitsVal [a, b], rest) else none
  | _ => none

/-- Parse exactly four digits. -/
def d4 : List Char → Option (ℕ × List Char)
  | a :: b :: c :: e :: rest =>
    if a.isDigit && b.isDigit && c.isDigit && e.isDigit then
      some (digitsVal [a, b, c, e], rest)
    else none
  | _ => none

/-- Consume one expected character. -/
def expectChar (ch : Char) : List Char → Option (List Char)
  | x :: rest => if x = ch then some rest else none
  | [] => none

/-- Gregorian leap year. -/
def isLeap (y : Int) : Bool := (y % 4 == 0 && y % 100 != 0) || (y % 400 == 0)

/-- Number of days of month `m` in year `y`. -/
def daysInMonth (y : Int) (m : ℕ) : ℕ :=
  if m = 2 then (if isLeap y then 29 else 28)
  else if m == 4 || m == 6 || m == 9 || m == 11 then 30
  else 31

/-- Days from the civil date `y-m-d` to 1970-01-01 (Howard Hinnant's
`days_from_civil` algorithm, with floor divisions). -/
def daysFromCivil (y : Int) (m d : ℕ) : Int :=
  let yy : Int := if m ≤ 2 then y - 1 else y
  let era : Int := yy.fdiv 400
  let yoe : Int := yy - era * 400
  let mp : Int := (m : Int) + (if 2 < m then -3 else 9)
  let doy : Int := (153 * mp + 2).fdiv 5 + (d : Int) - 1
  let doe : Int := yoe * 365 + yoe.fdiv 4 - yoe.fdiv 100 + doy
  era * 146097 + doe - 719468

/-- Skip an optional fractional-seconds part `.digits`. -/
def skipFraction : List Char → Option (List Char)
  | '.' :: r =>
    let p := r.span Char.isDigit
    if p.1.isEmpty then none else some p.2
  | r => some r

/-- Parse the magnitude of a timezone offset, `HH`, `HH:MM` or `HHMM`,
in seconds. -/
def parseOffsetMag (cs : List Char) : Option Int :=
  match d2 cs with
  | none => none
  | some (oh, cs1) =>
    match cs1 with
    | [] => if oh ≤ 23 then some ((oh : Int) * 3600) else none
    | ':' :: rest =>
      match d2 rest with
      | some (om, []) =>
        if oh ≤ 23 ∧ om ≤ 59 then some ((oh : Int) * 3600 + (om : Int) * 60) else none
      | _ => none
    | rest =>
      match d2 rest with
      | some (om, []) =>
        if oh ≤ 23 ∧ om ≤ 59 then some ((oh : Int) * 3600 + (om : Int) * 60) else none
      | _ => none

/-- Parse the timezone designator: empty (naive, treated as UTC by
`utc=True`), `Z`, or a signed offset. Returns the offset in seconds. -/
def parseOffset : List Char → Option Int
  | [] => some 0
  | ['Z'] => some 0
  | '+' :: rest => parseOffsetMag rest
  | '-' :: rest => (parseOffsetMag rest).map (fun v => -v)
  | _ => none

/-- Parse `HH:MM[:SS[.frac]]` followed by an optional offset. Returns
(seconds within the day, offset seconds). -/
def parseTimeAndOffset (cs : List Char) : Option (Int × Int) :=
  match d2 cs with
  | none => none
  | some (h, cs1) =>
    match expectChar ':' cs1 with
    | none => none
    | some cs2 =>
      match d2 cs2 with
      | none => none
      | some (mi, cs3) =>
        let secPart : Option (ℕ × List Char) :=
          match cs3 with
          | ':' :: rest =>
            match d2 rest with
            | none => none
            | some (s0, r) =>
              match skipFraction r with
              | none => none
              | some r2 => some (s0, r2)
          | _ => some (0, cs3)
        match secPart with
        | none => none
        | some (s0, cs4) =>
          if h ≤ 23 ∧ mi ≤ 59 ∧ s0 ≤ 59 then
            match parseOffset cs4 with
            | none => none
            | some off => some ((h : Int) * 3600 + (mi : Int) * 60 + (s0 : Int), off)
          else none

/-- Models `pd.to_datetime(s, errors="coerce", utc=True)` on a trimmed text field:
an ISO-8601 date `YYYY-MM-DD`, optionally followed by a time of day and a
timezone designator.  Returns the UTC instant in seconds since
1970-01-01T00:00:00Z, or `none` (NaT) when unparseable. -/
def parseTimestampUTC (s : String) : Option Int :=
  match d4 s.toList with
  | none => none
  | some (y, cs1) =>
    match expectChar '-' cs1 with
    | none => none
    | some cs2 =>
      match d2 cs2 with
      | none => none
      | some (mo, cs3) =>
        match expectChar '-' cs3 with
        | none => none
        | some cs4 =>
          match d2 cs4 with
          | none => none
          | some (dy, cs5) =>
            if 1 ≤ mo ∧ mo ≤ 12 ∧ 1 ≤ dy ∧ dy ≤ daysInMonth (y : Int) mo then
              let timeOff : Option (Int × Int) :=
                match cs5 with
                | [] => some (0, 0)
                | 'T' :: rest => parseTimeAndOffset rest
                | ' ' :: rest => parseTimeAndOffset rest
                | _ => none
              match timeOff with
              | none => none
              | some (tsec, off) =>
                some (daysFromCivil (y : Int) mo dy * 86400 + tsec - off)
            else none

/-! ### Validation and cleaning (`validate_and_clean`) -/

/-- The dedupe key: the (stripped) transaction identifier. -/
def tidOf (r : Row) : String := getCell r "transaction_id"

/-- Keep-first deduplication with an accumulator of already seen keys. -/
def dedupeAux {α κ : Type} [DecidableEq κ] (key : α → κ) (seen : List κ) :
    List α → List α
  | [] => []
  | r :: l =>
    if key r ∈ seen then dedupeAux key seen l
    else r :: dedupeAux key (key r :: seen) l

/-- Models `df.drop_duplicates(subset=[...], keep="first")`: deduplicate by `key`,
keeping the first occurrence in input order. -/
def dedupeByKey {α κ : Type} [DecidableEq κ] (key : α → κ) (l : List α) : List α :=
  dedupeAux key [] l

/-- The transaction rows after column/value stripping and keep-first
deduplication by transaction identifier (etl_run.py lines 83-91). -/
def dedupedTxns (txns : DataFrame) : List Row :=
  dedupeByKey tidOf (stripCellValues (stripColNames txns)).rows

/-- Models `set(merchants["merchant_id"])` after stripping (etl_run.py line 102),
as the list of stripped merchant identifiers. -/
def merchantIdsOf (merchants : DataFrame) : List String :=
  (stripCellValues (stripColNames merchants)).rows.map (fun r => getCell r "merchant_id")

/-- Models `status == "APPROVED"`. -/
def isApproved (r : Row) : Bool := getCell r "status" == "APPROVED"

/-- Models `status == "DECLINED"`. -/
def isDeclined (r : Row) : Bool := getCell r "status" == "DECLINED"

/-- Models `txns["status"].isin(["APPROVED", "DECLINED"])`. -/
def statusOk (r : Row) : Bool := isApproved r || isDeclined r

/-- Models `amount_num.notna() & (amount_num > 0)`. -/
def amountOk (r : Row) : Bool :=
  match parseAmount (getCell r "amount") with
  | some q => decide (0 < q)
  | none => false

/-- Models `txn_ts.notna()`. -/
def tsOk (r : Row) : Bool := (parseTimestampUTC (getCell r "txn_ts_utc")).isSome

/-- Models `txns["merchant_id"].isin(merchant_ids)`. -/
def merchantOk (ids : List String) (r : Row) : Bool :=
  decide (getCell r "merchant_id" ∈ ids)

/-- The validity conjunction of etl_run.py line 105. -/
def isValidTxn (ids : List String) (r : Row) : Bool :=
  statusOk r && amountOk r && tsOk r && merchantOk ids r

/-- Models `txns.loc[is_valid]`: the cleaned transaction rows. -/
def cleanRows (merchants txns : DataFrame) : List Row :=
  (dedupedTxns txns).filter (isValidTxn (merchantIdsOf merchants))

/-- Models `validate_and_clean(merchants, txns)` (etl_run.py lines 63-112).
Returns the stripped merchant table (the caller's merchant DataFrame is
mutated in place by the stripping loop — modelled by returning the updated
table), the cleaned transaction table, and the run statistics; or the
schema error raised before any row is processed. -/
def validateAndClean (merchants txns : DataFrame) :
    Except EtlError (DataFrame × DataFrame × RunStats) :=
  if missingCols requiredMerchCols (merchants.cols.map strTrim) ≠ [] then
    .error (.schemaError "merchants.csv"
      (missingCols requiredMerchCols (merchants.cols.map strTrim)))
  else if missingCols requiredTxnCols (txns.cols.map strTrim) ≠ [] then
    .error (.schemaError "transactions.csv"
      (missingCols requiredTxnCols (txns.cols.map strTrim)))
  else
    .ok (stripCellValues (stripColNames merchants),
         ⟨txns.cols.map strTrim, cleanRows merchants txns⟩,
         { txns_total := txns.rows.length
           txns_after_dedupe := (dedupedTxns txns).length
           txns_valid := (cleanRows merchants txns).length
           txns_rejected := (dedupedTxns txns).length - (cleanRows merchants txns).length
           merchants_loaded := 0
           daily_rows := 0
           fact_rows_upserted := 0 })

/-! ### Aggregation (`transform_daily_metrics`) -/

/-- Models `clean_txns["txn_ts"].dt.date`: the UTC calendar date of the parsed
instant, as days since 1970-01-01. -/
def metricDateOf (r : Row) : Int :=
  ((parseTimestampUTC (getCell r "txn_ts_utc")).getD 0).fdiv 86400

/-- The groupby key `(metric_date, merchant_id)`. -/
def groupKey (r : Row) : Int × String := (metricDateOf r, getCell r "merchant_id")

/-- Models `clean_txns["amount_num"]` of a cleaned row. -/
def amountOf (r : Row) : ℚ := (parseAmount (getCell r "amount")).getD 0

/-- Ordering of group keys used by pandas `groupby(sort=True)`:
ascending date, then ascending merchant identifier. -/
def keyLE (a b : Int × String) : Bool :=
  decide (a.1 < b.1) || (a.1 == b.1 && !(compare a.2 b.2 == Ordering.gt))

/-- Insertion into a sorted list. -/
def insertBy {α : Type} (le : α → α → Bool) (a : α) : List α → List α
  | [] => [a]
  | b :: l => if le a b then a :: b :: l else b :: insertBy le a l

/-- Insertion sort. -/
def sortBy {α : Type} (le : α → α → Bool) : List α → List α
  | [] => []
  | a :: l => insertBy le a (sortBy le l)

/-- The floor of a rational, computed by floor division of the numerator by
the denominator (kernel-reducible; equal to `Int.floor`). -/
def ratFloor (x : ℚ) : ℤ := x.num.fdiv (x.den : ℤ)

/-- Round a rational to the nearest integer, ties to even
(the rounding of numpy/pandas `.round`). -/
def roundHalfEven (x : ℚ) : ℤ :=
  if x - (ratFloor x : ℚ) < 1 / 2 then ratFloor x
  else if 1 / 2 < x - (ratFloor x : ℚ) then ratFloor x + 1
  else if ratFloor x % 2 = 0 then ratFloor x else ratFloor x + 1

/-- Models `Series.round(n)`: round to `n` decimal places, ties to even. -/
def roundTo (n : ℕ) (x : ℚ) : ℚ :=
  ((roundHalfEven (x * (10 : ℚ) ^ n) : ℤ) : ℚ) / (10 : ℚ) ^ n

/-- One aggregated daily metric row. -/
structure MetricRow where
  metric_date : Int
  merchant_id : String
  txn_count : ℕ
  approved_txn_count : ℕ
  declined_txn_count : ℕ
  gross_amount : ℚ
  approved_amount : ℚ
  approval_rate : ℚ
  avg_ticket : ℚ
deriving DecidableEq

/-- The aggregated output table: fixed column order plus the metric rows. -/
structure AggFrame where
  cols : List String
  rows : List MetricRow
deriving DecidableEq

/-- The aggregates of one `(metric_date, merchant_id)` group
(etl_run.py lines 127-140). -/
def aggRow (clean : List Row) (k : Int × String) : MetricRow :=
  let grp := clean.filter (fun r => decide (groupKey r = k))
  let cnt := grp.length
  let app := grp.countP isApproved
  let ndecl := grp.countP isDeclined
  let gross := (grp.map amountOf).sum
  let appAmt := (grp.map (fun r => if isApproved r then amountOf r else 0)).sum
  { metric_date := k.1
    merchant_id := k.2
    txn_count := cnt
    approved_txn_count := app
    declined_txn_count := ndecl
    gross_amount := gross
    approved_amount := appAmt
    approval_rate := roundTo 4 ((app : ℚ) / (cnt : ℚ))
    avg_ticket := roundTo 2 (gross / (cnt : ℚ)) }

/-- Models `transform_daily_metrics(clean_txns)` (etl_run.py lines 118-160):
one output row per distinct `(metric_date, merchant_id)` pair, keys in
ascending order, columns in the fixed sink order. -/
def transformDailyMetrics (clean : List Row) : AggFrame :=
  ⟨["metric_date", "merchant_id", "txn_count", "approved_txn_count",
    "declined_txn_count", "gross_amount", "approved_amount",
    "approval_rate", "avg_ticket"],
   (sortBy keyLE (dedupeByKey id (clean.map groupKey))).map (aggRow clean)⟩

/-! ### Loading (`load_merchants`, `upsert_facts`) and the sink -/

/-- A merchant dimension row's non-key attributes; `none` models SQL NULL
(a column absent from the input file is filled with `None`). -/
structure MerchantDim where
  merchant_name : Option String
  category : Option String
  city : Option String
  state : Option String
deriving DecidableEq

/-- The measure columns of one fact row. -/
structure FactRow where
  txn_count : ℕ
  approved_txn_count : ℕ
  declined_txn_count : ℕ
  gross_amount : ℚ
  approved_amount : ℚ
  approval_rate : ℚ
  avg_ticket : ℚ
deriving DecidableEq

/-- The relational sink: `dim_merchants` keyed by merchant identifier and
`fact_daily_merchant_metrics` keyed by (metric_date, merchant_id). -/
structure Sink where
  dimMerchants : List (String × MerchantDim)
  factDaily : List ((Int × String) × FactRow)
deriving DecidableEq

/-- Is the key `k` present in the keyed table `t`? -/
def keyMem {κ α : Type} [DecidableEq κ] (k : κ) (t : List (κ × α)) : Bool :=
  t.any (fun p => decide (p.1 = k))

/-- Overwrite the value stored at key `k` (the `WHEN MATCHED THEN UPDATE`
arm of the MERGE). -/
def setVal {κ α : Type} [DecidableEq κ] (t : List (κ × α)) (k : κ) (v : α) :
    List (κ × α) :=
  t.map (fun p => if p.1 = k then (p.1, v) else p)

/-- Upsert one source row into a keyed table: update when the key matches,
insert when it does not (one MERGE action). -/
def upsertOne {κ α : Type} [DecidableEq κ] (t : List (κ × α)) (kv : κ × α) :
    List (κ × α) :=
  if keyMem kv.1 t then setVal t kv.1 kv.2 else t ++ [kv]

/-- Set-based MERGE of the staged source rows into the target table. -/
def upsertAll {κ α : Type} [DecidableEq κ] (t : List (κ × α))
    (rows : List (κ × α)) : List (κ × α) :=
  rows.foldl upsertOne t

/-- The staged merchant row presented for upsert: key `merchant_id`;
columns absent from the input are `None` (etl_run.py lines 184-191). -/
def mercEntry (r : Row) : String × MerchantDim :=
  ((r.lookup "merchant_id").getD "",
   ⟨r.lookup "merchant_name", r.lookup "category", r.lookup "city", r.lookup "state"⟩)

/-- The staged fact row presented for upsert: key (metric_date, merchant_id)
plus all measure columns. -/
def factEntry (g : MetricRow) : (Int × String) × FactRow :=
  ((g.metric_date, g.merchant_id),
   ⟨g.txn_count, g.approved_txn_count, g.declined_txn_count, g.gross_amount,
    g.approved_amount, g.approval_rate, g.avg_ticket⟩)

/-- Models `load_merchants` (etl_run.py lines 166-213): stage and MERGE the
merchant rows; returns the new sink and the count of rows presented. -/
def loadMerchants (s : Sink) (m : DataFrame) : Sink × ℕ :=
  ({ s with dimMerchants := upsertAll s.dimMerchants (m.rows.map mercEntry) },
   m.rows.length)

/-- Models `upsert_facts` (etl_run.py lines 216-268): stage and MERGE the daily
metric rows; returns the new sink and the count of rows presented. -/
def upsertFacts (s : Sink) (daily : AggFrame) : Sink × ℕ :=
  ({ s with factDaily := upsertAll s.factDaily (daily.rows.map factEntry) },
   daily.rows.length)

/-- Models `main()` without extraction and connection plumbing: validate/clean,
aggregate, load merchants (the stripped table — the in-place mutation of
the caller's DataFrame is modelled by threading the validator's returned
table), upsert facts, and report statistics.  A schema error aborts the run
before anything reaches the loader. -/
def runPipeline (merchants txns : DataFrame) (s : Sink) :
    Except EtlError (Sink × RunStats) :=
  match validateAndClean merchants txns with
  | .error e => .error e
  | .ok (m2, cdf, stats) =>
    let daily := transformDailyMetrics cdf.rows
    let p1 := loadMerchants s m2
    let p2 := upsertFacts p1.1 daily
    .ok (p2.1,
      { stats with merchants_loaded := p1.2, daily_rows := daily.rows.length,
                   fact_rows_upserted := p2.2 })

/-! ### Concrete tables used by the witnesses -/

/-- A one-merchant input table. -/
def mW : DataFrame :=
  ⟨["merchant_id", "merchant_name"],
   [[("merchant_id", "m1"), ("merchant_name", "Shop One")]]⟩

/-- The end-to-end scenario's transaction table: two transactions of
merchant m1 on 2026-01-01, one approved of 10.00 and one declined of
20.00. -/
def tW : DataFrame :=
  ⟨["transaction_id", "merchant_id", "txn_ts_utc", "amount", "status"],
   [[("transaction_id", "t1"), ("merchant_id", "m1"),
     ("txn_ts_utc", "2026-01-01T10:00:00Z"), ("amount", "10.00"),
     ("status", "APPROVED")],
    [("transaction_id", "t2"), ("merchant_id", "m1"),
     ("txn_ts_utc", "2026-01-01T11:00:00Z"), ("amount", "20.00"),
     ("status", "DECLINED")]]⟩

/-- The statistics of validating `tW` against `mW`. -/
def stW : RunStats := ⟨2, 2, 2, 0, 0, 0, 0⟩

/-- The single aggregated row of the end-to-end scenario. -/
def gW : MetricRow :=
  ⟨daysFromCivil 2026 1 1, "m1", 2, 1, 1, 30, 10, 1 / 2, 15⟩

/-- A sink with no rows. -/
def emptySink : Sink := ⟨[], []⟩

/-- The sink after one full run of `mW`/`tW` against the empty sink. -/
def s1W : Sink :=
  ⟨[("m1", ⟨some "Shop One", none, none, none⟩)],
   [((daysFromCivil 2026 1 1, "m1"), ⟨2, 1, 1, 30, 10, 1 / 2, 15⟩)]⟩

/-- The statistics of a full run of `mW`/`tW`. -/
def stFullW : RunStats := ⟨2, 2, 2, 0, 1, 1, 1⟩

/-- A merchant table lacking the required `merchant_name` column. -/
def mBad : DataFrame := ⟨["merchant_id"], []⟩

/-- A duplicate of transaction t1 carrying a different amount. -/
def dupW : Row :=
  [("transaction_id", "t1"), ("merchant_id", "m1"),
   ("txn_ts_utc", "2026-01-01T12:00:00Z"), ("amount", "99.00"),
   ("status", "APPROVED")]

/-! ### Reduction of the irreducible rational operations for the
concrete-input witnesses -/

attribute [local semireducible] Rat.mul Rat.add Rat.sub Rat.inv

/-! ### Deduplication lemmas -/

theorem mem_of_mem_dedupeAux {α κ : Type} [DecidableEq κ] (key : α → κ)
    (seen : List κ) (l : List α) (a : α) (h : a ∈ dedupeAux key seen l) :
    a ∈ l := by
  induction l generalizing seen with
  | nil => simp [dedupeAux] at h
  | cons r l ih =>
    simp only [dedupeAux] at h
    split at h
    · exact List.mem_cons_of_mem _ (ih _ h)
    · rcases List.mem_cons.mp h with h1 | h1
      · exact h1 ▸ List.mem_cons_self _ _
      · exact List.mem_cons_of_mem _ (ih _ h1)

theorem dedupeAux_congr_seen {α κ : Type} [DecidableEq κ] (key : α → κ)
    (s1 s2 : List κ) (l : List α) (h : ∀ x, x ∈ s1 ↔ x ∈ s2) :
    dedupeAux key s1 l = dedupeAux key s2 l := by
  induction l generalizing s1 s2 with
  | nil => rfl
  | cons r l ih =>
    simp only [dedupeAux]
    by_cases hk : key r ∈ s1
    · rw [if_pos hk, if_pos ((h _).mp hk)]
      exact ih _ _ h
    · rw [if_neg hk, if_neg (fun hc => hk ((h _).mpr hc))]
      congr 1
      apply ih
      intro x
      simp only [List.mem_cons]
      exact or_congr Iff.rfl (h x)

theorem dedupeAux_cons_seen {α κ : Type} [DecidableEq κ] (key : α → κ)
    (k : κ) (seen : List κ) (l : List α) :
    dedupeAux key (k :: seen) l
      = dedupeAux key seen (l.filter (fun s => decide (key s ≠ k))) := by
  induction l generalizing seen with
  | nil => rfl
  | cons r l ih =>
    simp only [dedupeAux, List.filter_cons]
    by_cases hrk : key r = k
    · rw [if_pos (by simp [hrk]), if_neg (by simp [hrk])]
      exact ih seen
    · by_cases hks : key r ∈ seen
      · rw [if_pos (by simp [hks]), if_pos (by simp [hrk])]
        simp only [dedupeAux]
        rw [if_pos hks]
        exact ih seen
      · rw [if_neg (by simp [hrk, hks]), if_pos (by simp [hrk])]
        simp only [dedupeAux]
        rw [if_neg hks]
        congr 1
        calc dedupeAux key (key r :: k :: seen) l
            = dedupeAux key (k :: key r :: seen) l := by
              apply dedupeAux_congr_seen
              intro x
              simp only [List.mem_cons]
              tauto
          _ = dedupeAux key (key r :: seen) (l.filter (fun s => decide (key s ≠ k))) :=
              ih (key r :: seen)

theorem dedupeAux_insert_dup {α κ : Type} [DecidableEq κ] (key : α → κ)
    (seen : List κ) (l1 l2 : List α) (dup : α)
    (h : key dup ∈ seen ∨ key dup ∈ l1.map key) :
    dedupeAux key seen (l1 ++ dup :: l2) = dedupeAux key seen (l1 ++ l2) := by
  induction l1 generalizing seen with
  | nil =>
    rcases h with h | h
    · simp only [List.nil_append, dedupeAux]
      rw [if_pos h]
    · simp at h
  | cons r l1 ih =>
    simp only [List.cons_append, dedupeAux]
    by_cases hks : key r ∈ seen
    · rw [if_pos hks, if_pos hks]
      apply ih
      rcases h with h | h
      · exact Or.inl h
      · simp only [List.map_cons, List.mem_cons] at h
        rcases h with h | h
        · exact Or.inl (h ▸ hks)
        · exact Or.inr h
    · rw [if_neg hks, if_neg hks]
      congr 1
      apply ih
      rcases h with h | h
      · exact Or.inl (List.mem_cons_of_mem _ h)
      · simp only [List.map_cons, List.mem_cons] at h
        rcases h with h | h
        · exact Or.inl (h ▸ List.mem_cons_self _ _)
        · exact Or.inr h

theorem nodup_keys_dedupeAux {α κ : Type} [DecidableEq κ] (key : α → κ)
    (seen : List κ) (l : List α) :
    ((dedupeAux key seen l).map key).Nodup
      ∧ ∀ k ∈ (dedupeAux key seen l).map key, k ∉ seen := by
  induction l generalizing seen with
  | nil => simp [dedupeAux]
  | cons r l ih =>
    simp only [dedupeAux]
    by_cases hks : key r ∈ seen
    · rw [if_pos hks]
      exact ih seen
    · rw [if_neg hks]
      obtain ⟨h1, h2⟩ := ih (key r :: seen)
      refine ⟨?_, ?_⟩
      · simp only [List.map_cons, List.nodup_cons]
        exact ⟨fun hc => (h2 _ hc) (List.mem_cons_self _ _), h1⟩
      · intro k hk
        simp only [List.map_cons, List.mem_cons] at hk
        rcases hk with rfl | hk
        · exact hks
        · exact fun hc => (h2 _ hk) (List.mem_cons_of_mem _ hc)

theorem mem_keys_dedupeAux {α κ : Type} [DecidableEq κ] (key : α → κ)
    (seen : List κ) (l : List α) (k : κ) (hk : k ∈ l.map key) (hs : k ∉ seen) :
    k ∈ (dedupeAux key seen l).map key := by
  induction l generalizing seen with
  | nil => simp at hk
  | cons r l ih =>
    simp only [List.map_cons, List.mem_cons] at hk
    simp only [dedupeAux]
    by_cases hks : key r ∈ seen
    · rw [if_pos hks]
      rcases hk with rfl | hk
      · exact absurd hks hs
      · exact ih _ hk hs
    · rw [if_neg hks]
      simp only [List.map_cons, List.mem_cons]
      rcases hk with rfl | hk
      · exact Or.inl rfl
      · by_cases hkr : k = key r
        · exact Or.inl hkr
        · refine Or.inr (ih _ hk ?_)
          simp only [List.mem_cons, not_or]
          exact ⟨hkr, hs⟩

theorem mem_dedupeByKey_id {κ : Type} [DecidableEq κ] (l : List κ) (k : κ) :
    k ∈ dedupeByKey id l ↔ k ∈ l := by
  constructor
  · exact fun h => mem_of_mem_dedupeAux id [] l k h
  · intro h
    have h2 := mem_keys_dedupeAux id [] l k (by simpa using h) (by simp)
    simpa using h2

/-! ### Sorting lemmas -/

theorem insertBy_perm {α : Type} (le : α → α → Bool) (a : α) (l : List α) :
    List.Perm (insertBy le a l) (a :: l) := by
  induction l with
  | nil => exact List.Perm.refl _
  | cons b l ih =>
    simp only [insertBy]
    split
    · exact List.Perm.refl _
    · exact (List.Perm.cons b ih).trans (List.Perm.swap a b l)

theorem sortBy_perm {α : Type} (le : α → α → Bool) (l : List α) :
    List.Perm (sortBy le l) l := by
  induction l with
  | nil => exact List.Perm.refl _
  | cons a l ih =>
    exact (insertBy_perm le a (sortBy le l)).trans (List.Perm.cons a ih)

/-! ### Shape of the aggregated output -/

theorem tdm_rows (clean : List Row) :
    (transformDailyMetrics clean).rows
      = (sortBy keyLE (dedupeByKey id (clean.map groupKey))).map (aggRow clean) := rfl

theorem tdm_keys (clean : List Row) :
    (transformDailyMetrics clean).rows.map (fun g => (g.metric_date, g.merchant_id))
      = sortBy keyLE (dedupeByKey id (clean.map groupKey)) := by
  rw [tdm_rows, List.map_map]
  exact List.map_id _

theorem tdm_keys_nodup (clean : List Row) :
    ((transformDailyMetrics clean).rows.map
      (fun g => (g.metric_date, g.merchant_id))).Nodup := by
  rw [tdm_keys]
  apply ((sortBy_perm keyLE _).nodup_iff).mpr
  have h := (nodup_keys_dedupeAux id [] (clean.map groupKey)).1
  simpa using h

theorem tdm_mem_keys (clean : List Row) (k : Int × String) :
    k ∈ (transformDailyMetrics clean).rows.map (fun g => (g.metric_date, g.merchant_id))
      ↔ k ∈ clean.map groupKey := by
  rw [tdm_keys, (sortBy_perm keyLE _).mem_iff]
  exact mem_dedupeByKey_id _ _

/-! ### Counting lemma for the status split -/

theorem countP_split {α : Type} (l : List α) (p q : α → Bool)
    (h : ∀ a ∈ l, (p a || q a) = true ∧ (p a && q a) = false) :
    l.countP p + l.countP q = l.length := by
  induction l with
  | nil => simp
  | cons a l ih =>
    have hq : List.countP q (a :: l) = List.countP (fun b => ¬p b) (a :: l) := by
      apply List.countP_congr
      intro b hb
      obtain ⟨hb1, hb2⟩ := h b hb
      cases hpb : p b <;> cases hqb : q b <;> rw [hpb, hqb] at hb1 hb2 <;> simp
      · exact absurd hb1 (by decide)
      · exact absurd hb2 (by decide)
    rw [hq]
    exact (List.length_eq_countP_add_countP p (a :: l)).symm

/-! ### Rounding lemmas -/

theorem ratFloor_eq_floor (x : ℚ) : ratFloor x = ⌊x⌋ := by
  rw [Rat.floor_def, ratFloor, Int.fdiv_eq_ediv _ (Int.natCast_nonneg _)]

theorem roundHalfEven_nonneg {x : ℚ} (hx : 0 ≤ x) : 0 ≤ roundHalfEven x := by
  have hf : 0 ≤ ratFloor x := by
    rw [ratFloor_eq_floor]
    exact Int.floor_nonneg.mpr hx
  unfold roundHalfEven
  split_ifs <;> omega

theorem roundHalfEven_le {x : ℚ} {B : ℤ} (h : x ≤ (B : ℚ)) :
    roundHalfEven x ≤ B := by
  have hfB : ⌊x⌋ ≤ B := by
    have h2 := Int.floor_le_floor h
    simpa using h2
  unfold roundHalfEven
  rw [ratFloor_eq_floor]
  split_ifs with h1 h2 h3
  · exact hfB
  · have hlt : (⌊x⌋ : ℚ) < x := by linarith
    have hltB : ⌊x⌋ < B := by exact_mod_cast lt_of_lt_of_le hlt h
    omega
  · exact hfB
  · have hge : (1 : ℚ) / 2 ≤ x - (⌊x⌋ : ℚ) := not_lt.mp h1
    have hlt : (⌊x⌋ : ℚ) < x := by linarith
    have hltB : ⌊x⌋ < B := by exact_mod_cast lt_of_lt_of_le hlt h
    omega

theorem roundTo_nonneg {n : ℕ} {x : ℚ} (hx : 0 ≤ x) : 0 ≤ roundTo n x := by
  unfold roundTo
  apply div_nonneg
  · exact_mod_cast roundHalfEven_nonneg (by positivity)
  · positivity

theorem roundTo_le_one {n : ℕ} {x : ℚ} (_hx0 : 0 ≤ x) (hx : x ≤ 1) :
    roundTo n x ≤ 1 := by
  unfold roundTo
  rw [div_le_one (by positivity)]
  have hb : x * (10 : ℚ) ^ n ≤ ((10 ^ n : ℤ) : ℚ) := by
    push_cast
    calc x * (10 : ℚ) ^ n ≤ 1 * (10 : ℚ) ^ n :=
          mul_le_mul_of_nonneg_right hx (by positivity)
      _ = (10 : ℚ) ^ n := one_mul _
  have hr := roundHalfEven_le hb
  calc ((roundHalfEven (x * (10 : ℚ) ^ n) : ℤ) : ℚ) ≤ ((10 ^ n : ℤ) : ℚ) := by
        exact_mod_cast hr
    _ = (10 : ℚ) ^ n := by push_cast; ring

/-! ### Upsert (MERGE) lemmas -/

theorem upsertAll_cons {κ α : Type} [DecidableEq κ] (t : List (κ × α))
    (r : κ × α) (rows : List (κ × α)) :
    upsertAll t (r :: rows) = upsertAll (upsertOne t r) rows := rfl

theorem keyMem_iff {κ α : Type} [DecidableEq κ] (k : κ) (t : List (κ × α)) :
    keyMem k t = true ↔ ∃ p ∈ t, p.1 = k := by
  simp [keyMem, List.any_eq_true]

theorem mem_setVal {κ α : Type} [DecidableEq κ] {t : List (κ × α)} {k : κ}
    {v : α} {p : κ × α} (h : p ∈ setVal t k v) : p ∈ t ∨ p = (k, v) := by
  unfold setVal at h
  obtain ⟨q, hq, hqp⟩ := List.mem_map.mp h
  by_cases hk : q.1 = k
  · rw [if_pos hk] at hqp
    exact Or.inr (by rw [← hqp, hk])
  · rw [if_neg hk] at hqp
    exact Or.inl (hqp ▸ hq)

theorem setVal_vals {κ α : Type} [DecidableEq κ] (t : List (κ × α)) (k : κ)
    (v : α) : ∀ p ∈ setVal t k v, p.1 = k → p.2 = v := by
  intro p hp hpk
  unfold setVal at hp
  obtain ⟨q, hq, hqp⟩ := List.mem_map.mp hp
  by_cases hk : q.1 = k
  · rw [if_pos hk] at hqp
    rw [← hqp]
  · rw [if_neg hk] at hqp
    exact absurd (hqp ▸ hpk) hk

theorem setVal_noop {κ α : Type} [DecidableEq κ] (t : List (κ × α)) (k : κ)
    (v : α) (h : ∀ p ∈ t, p.1 = k → p.2 = v) : setVal t k v = t := by
  unfold setVal
  conv_rhs => rw [← List.map_id t]
  apply List.map_congr_left
  intro p hp
  by_cases hk : p.1 = k
  · have hv := h p hp hk
    rw [if_pos hk, ← hv]
    rfl
  · rw [if_neg hk]
    rfl


theorem keyMem_setVal {κ α : Type} [DecidableEq κ] (t : List (κ × α))
    (k0 k : κ) (v : α) : keyMem k (setVal t k0 v) = keyMem k t := by
  induction t with
  | nil => rfl
  | cons q t ih =>
    simp only [setVal, List.map_cons, keyMem, List.any_cons] at ih ⊢
    by_cases h : q.1 = k0
    · rw [if_pos h]
      simp only [ih]
    · rw [if_neg h]
      simp only [ih]

theorem upsertOne_self_vals {κ α : Type} [DecidableEq κ] (t : List (κ × α))
    (kv : κ × α) : ∀ p ∈ upsertOne t kv, p.1 = kv.1 → p.2 = kv.2 := by
  intro p hp hpk
  unfold upsertOne at hp
  split at hp
  · exact setVal_vals t kv.1 kv.2 p hp hpk
  · rename_i hmem
    rcases List.mem_append.mp hp with h | h
    · exact absurd ((keyMem_iff kv.1 t).mpr ⟨p, h, hpk⟩) (by simp [hmem])
    · rw [List.mem_singleton.mp h]

theorem keyMem_upsertOne_self {κ α : Type} [DecidableEq κ] (t : List (κ × α))
    (kv : κ × α) : keyMem kv.1 (upsertOne t kv) = true := by
  unfold upsertOne
  split
  · rename_i hmem
    rw [keyMem_setVal]
    exact hmem
  · rw [keyMem_iff]
    exact ⟨kv, List.mem_append_right _ (List.mem_singleton_self kv), rfl⟩

theorem keyMem_upsertOne_mono {κ α : Type} [DecidableEq κ]
    {t : List (κ × α)} {k : κ} (kv : κ × α) (h : keyMem k t = true) :
    keyMem k (upsertOne t kv) = true := by
  unfold upsertOne
  split
  · rw [keyMem_setVal]
    exact h
  · rw [keyMem_iff] at h ⊢
    obtain ⟨p, hp, hpk⟩ := h
    exact ⟨p, List.mem_append_left _ hp, hpk⟩

theorem upsertOne_pres_vals {κ α : Type} [DecidableEq κ] {t : List (κ × α)}
    {k : κ} {v : α} (kv : κ × α) (hne : k ≠ kv.1)
    (h : ∀ p ∈ t, p.1 = k → p.2 = v) :
    ∀ p ∈ upsertOne t kv, p.1 = k → p.2 = v := by
  intro p hp hpk
  unfold upsertOne at hp
  split at hp
  · rcases mem_setVal hp with h1 | h1
    · exact h p h1 hpk
    · rw [h1] at hpk
      exact absurd (by simpa using hpk.symm : k = kv.1) hne
  · rcases List.mem_append.mp hp with h1 | h1
    · exact h p h1 hpk
    · rw [List.mem_singleton.mp h1] at hpk
      exact absurd (by simpa using hpk.symm : k = kv.1) hne

theorem upsertAll_pres {κ α : Type} [DecidableEq κ] (rows : List (κ × α))
    (t : List (κ × α)) (kv : κ × α) (hk : kv.1 ∉ rows.map Prod.fst)
    (hmem : keyMem kv.1 t = true) (hval : ∀ p ∈ t, p.1 = kv.1 → p.2 = kv.2) :
    keyMem kv.1 (upsertAll t rows) = true
      ∧ ∀ p ∈ upsertAll t rows, p.1 = kv.1 → p.2 = kv.2 := by
  induction rows generalizing t with
  | nil => exact ⟨hmem, hval⟩
  | cons r rows ih =>
    simp only [List.map_cons, List.mem_cons, not_or] at hk
    rw [upsertAll_cons]
    exact ih (upsertOne t r) hk.2 (keyMem_upsertOne_mono r hmem)
      (upsertOne_pres_vals r (fun hc => hk.1 hc) hval)

theorem upsertOne_noop {κ α : Type} [DecidableEq κ] (t : List (κ × α))
    (kv : κ × α) (hmem : keyMem kv.1 t = true)
    (hval : ∀ p ∈ t, p.1 = kv.1 → p.2 = kv.2) : upsertOne t kv = t := by
  unfold upsertOne
  rw [if_pos hmem]
  exact setVal_noop t kv.1 kv.2 hval

theorem upsertAll_idem {κ α : Type} [DecidableEq κ] (rows : List (κ × α))
    (t : List (κ × α)) (h : (rows.map Prod.fst).Nodup) :
    upsertAll (upsertAll t rows) rows = upsertAll t rows := by
  induction rows generalizing t with
  | nil => rfl
  | cons r rows ih =>
    simp only [List.map_cons, List.nodup_cons] at h
    rw [upsertAll_cons, upsertAll_cons]
    have hpres := upsertAll_pres rows (upsertOne t r) r h.1
      (keyMem_upsertOne_self t r) (upsertOne_self_vals t r)
    rw [upsertOne_noop (upsertAll (upsertOne t r) rows) r hpres.1 hpres.2]
    exact ih (upsertOne t r) h.2

theorem mem_upsertOne {κ α : Type} [DecidableEq κ] {t : List (κ × α)}
    {kv p : κ × α} (h : p ∈ upsertOne t kv) : p ∈ t ∨ p = kv := by
  unfold upsertOne at h
  split at h
  · rcases mem_setVal h with h1 | h1
    · exact Or.inl h1
    · exact Or.inr h1
  · rcases List.mem_append.mp h with h1 | h1
    · exact Or.inl h1
    · exact Or.inr (List.mem_singleton.mp h1)

theorem mem_upsertAll {κ α : Type} [DecidableEq κ] {rows : List (κ × α)}
    {t : List (κ × α)} {p : κ × α} (h : p ∈ upsertAll t rows) :
    p ∈ t ∨ p ∈ rows := by
  induction rows generalizing t with
  | nil => exact Or.inl h
  | cons r rows ih =>
    rw [upsertAll_cons] at h
    rcases ih h with h1 | h1
    · rcases mem_upsertOne h1 with h2 | h2
      · exact Or.inl h2
      · exact Or.inr (h2 ▸ List.mem_cons_self _ _)
    · exact Or.inr (List.mem_cons_of_mem _ h1)

/-! ### Shape of `validateAndClean` and `runPipeline` -/

theorem validateAndClean_ok_inv {m t m2 cdf : DataFrame} {st : RunStats}
    (h : validateAndClean m t = .ok (m2, cdf, st)) :
    missingCols requiredMerchCols (m.cols.map strTrim) = []
    ∧ missingCols requiredTxnCols (t.cols.map strTrim) = []
    ∧ m2 = stripCellValues (stripColNames m)
    ∧ cdf = ⟨t.cols.map strTrim, cleanRows m t⟩
    ∧ st = ⟨t.rows.length, (dedupedTxns t).length, (cleanRows m t).length,
            (dedupedTxns t).length - (cleanRows m t).length, 0, 0, 0⟩ := by
  unfold validateAndClean at h
  split at h
  · exact absurd h (by simp)
  · split at h
    · exact absurd h (by simp)
    · rename_i h1 h2
      simp only [Except.ok.injEq, Prod.mk.injEq] at h
      exact ⟨not_ne_iff.mp h1, not_ne_iff.mp h2, h.1.symm, h.2.1.symm, h.2.2.symm⟩

theorem validateAndClean_err_merch {m t : DataFrame}
    (hM : missingCols requiredMerchCols (m.cols.map strTrim) ≠ []) :
    validateAndClean m t = .error (.schemaError "merchants.csv"
      (missingCols requiredMerchCols (m.cols.map strTrim))) := by
  unfold validateAndClean
  rw [if_pos hM]

theorem validateAndClean_err_txn {m t : DataFrame}
    (hM : missingCols requiredMerchCols (m.cols.map strTrim) = [])
    (hT : missingCols requiredTxnCols (t.cols.map strTrim) ≠ []) :
    validateAndClean m t = .error (.schemaError "transactions.csv"
      (missingCols requiredTxnCols (t.cols.map strTrim))) := by
  unfold validateAndClean
  rw [if_neg (by simp [hM]), if_pos hT]

theorem runPipeline_err {m t : DataFrame} {e : EtlError} (s : Sink)
    (h : validateAndClean m t = .error e) : runPipeline m t s = .error e := by
  unfold runPipeline
  rw [h]

theorem runPipeline_ok {m t m2 cdf : DataFrame} {st0 : RunStats} (s : Sink)
    (h : validateAndClean m t = .ok (m2, cdf, st0)) :
    runPipeline m t s = .ok
      (⟨upsertAll s.dimMerchants (m2.rows.map mercEntry),
        upsertAll s.factDaily ((transformDailyMetrics cdf.rows).rows.map factEntry)⟩,
       { st0 with merchants_loaded := m2.rows.length,
                  daily_rows := (transformDailyMetrics cdf.rows).rows.length,
                  fact_rows_upserted := (transformDailyMetrics cdf.rows).rows.length }) := by
  unfold runPipeline
  rw [h]
  rfl

theorem strip_rows_eq (df : DataFrame) :
    (stripCellValues (stripColNames df)).rows = df.rows.map stripRow := by
  show (df.rows.map _).map _ = _
  rw [List.map_map]
  apply List.map_congr_left
  intro r _
  show List.map _ (List.map _ r) = _
  rw [List.map_map]
  rfl

/-! ### The validity conjuncts, spelled out -/

theorem statusOk_iff (r : Row) :
    statusOk r = true
      ↔ (getCell r "status" = "APPROVED" ∨ getCell r "status" = "DECLINED") := by
  simp [statusOk, isApproved, isDeclined]

theorem amountOk_iff (r : Row) :
    amountOk r = true
      ↔ ∃ q : ℚ, parseAmount (getCell r "amount") = some q ∧ 0 < q := by
  unfold amountOk
  cases hp : parseAmount (getCell r "amount") with
  | none => simp
  | some q =>
    simp only [decide_eq_true_eq, Option.some.injEq]
    constructor
    · exact fun h => ⟨q, rfl, h⟩
    · rintro ⟨q2, rfl, h⟩
      exact h

theorem tsOk_iff (r : Row) :
    tsOk r = true ↔ ∃ i : ℤ, parseTimestampUTC (getCell r "txn_ts_utc") = some i := by
  simp [tsOk, Option.isSome_iff_exists]

theorem merchantOk_iff (ids : List String) (r : Row) :
    merchantOk ids r = true ↔ getCell r "merchant_id" ∈ ids := by
  simp [merchantOk]

theorem isValidTxn_iff (ids : List String) (r : Row) :
    isValidTxn ids r = true
      ↔ statusOk r = true ∧ amountOk r = true ∧ tsOk r = true
        ∧ merchantOk ids r = true := by
  simp [isValidTxn, Bool.and_eq_true, and_assoc]

/-! ### The claims -/

/-- C1: for every pair of input tables that passes the required-column
check, the cleaned transaction table returned by `validateAndClean`
contains exactly those post-dedupe rows satisfying the conjunction
(status APPROVED or DECLINED, amount parses and is positive, timestamp
parses, merchant identifier known); rows failing any conjunct are dropped
entirely, and the rejected counter equals the post-dedupe count minus the
valid count. -/
theorem validate_and_clean_exact_filter (m t m2 cdf : DataFrame) (st : RunStats)
    (h : validateAndClean m t = .ok (m2, cdf, st)) :
    cdf.rows = (dedupedTxns t).filter (isValidTxn (merchantIdsOf m))
    ∧ (∀ r : Row, r ∈ cdf.rows ↔ r ∈ dedupedTxns t
        ∧ (getCell r "status" = "APPROVED" ∨ getCell r "status" = "DECLINED")
        ∧ (∃ q : ℚ, parseAmount (getCell r "amount") = some q ∧ 0 < q)
        ∧ (∃ i : ℤ, parseTimestampUTC (getCell r "txn_ts_utc") = some i)
        ∧ getCell r "merchant_id" ∈ merchantIdsOf m)
    ∧ st.txns_valid = cdf.rows.length
    ∧ st.txns_after_dedupe = (dedupedTxns t).length
    ∧ st.txns_rejected = st.txns_after_dedupe - st.txns_valid := by
  obtain ⟨-, -, -, hcdf, hst⟩ := validateAndClean_ok_inv h
  subst hcdf
  subst hst
  refine ⟨rfl, ?_, rfl, rfl, rfl⟩
  intro r
  show r ∈ cleanRows m t ↔ _
  rw [cleanRows, List.mem_filter, isValidTxn_iff, statusOk_iff, amountOk_iff,
    tsOk_iff, merchantOk_iff]

theorem validate_and_clean_exact_filter_witness :
    validateAndClean mW tW = .ok (mW, tW, stW) ∧ stW.txns_valid = tW.rows.length :=
  ⟨by decide, (validate_and_clean_exact_filter mW tW mW tW stW (by decide)).2.2.1⟩

/-- C2: for every cleaned transaction table, `transformDailyMetrics` emits
exactly one output row per distinct (UTC date, merchant) pair occurring in
the input, with the per-group counts, sums and rounded ratios, and the
fixed output column order. -/
theorem transform_daily_metrics_contract (clean : List Row) :
    (transformDailyMetrics clean).cols
      = ["metric_date", "merchant_id", "txn_count", "approved_txn_count",
         "declined_txn_count", "gross_amount", "approved_amount",
         "approval_rate", "avg_ticket"]
    ∧ ((transformDailyMetrics clean).rows.map
        (fun g => (g.metric_date, g.merchant_id))).Nodup
    ∧ (∀ k : Int × String,
        k ∈ (transformDailyMetrics clean).rows.map
          (fun g => (g.metric_date, g.merchant_id))
          ↔ k ∈ clean.map groupKey)
    ∧ ∀ g ∈ (transformDailyMetrics clean).rows,
        g.txn_count = (clean.filter
          (fun r => decide (groupKey r = (g.metric_date, g.merchant_id)))).length
        ∧ g.approved_txn_count = (clean.filter
            (fun r => decide (groupKey r = (g.metric_date, g.merchant_id)))).countP
              isApproved
        ∧ g.declined_txn_count = (clean.filter
            (fun r => decide (groupKey r = (g.metric_date, g.merchant_id)))).countP
              isDeclined
        ∧ g.gross_amount = ((clean.filter
            (fun r => decide (groupKey r = (g.metric_date, g.merchant_id)))).map
              amountOf).sum
        ∧ g.approved_amount = ((clean.filter
            (fun r => decide (groupKey r = (g.metric_date, g.merchant_id)))).map
              (fun r => if isApproved r then amountOf r else 0)).sum
        ∧ g.approval_rate = roundTo 4 ((g.approved_txn_count : ℚ) / (g.txn_count : ℚ))
        ∧ g.avg_ticket = roundTo 2 (g.gross_amount / (g.txn_count : ℚ)) := by
  refine ⟨rfl, tdm_keys_nodup clean, fun k => tdm_mem_keys clean k, ?_⟩
  intro g hg
  rw [tdm_rows] at hg
  obtain ⟨k, hk, rfl⟩ := List.mem_map.mp hg
  exact ⟨rfl, rfl, rfl, rfl, rfl, rfl, rfl⟩

theorem transform_daily_metrics_contract_witness :
    (transformDailyMetrics tW.rows).cols
      = ["metric_date", "merchant_id", "txn_count", "approved_txn_count",
         "declined_txn_count", "gross_amount", "approved_amount",
         "approval_rate", "avg_ticket"]
    ∧ gW.txn_count = (tW.rows.filter
        (fun r => decide (groupKey r = (gW.metric_date, gW.merchant_id)))).length :=
  ⟨(transform_daily_metrics_contract tW.rows).1,
   ((transform_daily_metrics_contract tW.rows).2.2.2 gW (by decide)).1⟩

/-- C3: deduplication keeps, for each transaction identifier, exactly the
first occurrence in input order and silently drops every later row with the
same identifier; in particular, inserting a duplicate-identifier row after
an earlier occurrence leaves the deduplicated list — and hence the
aggregated metrics — unchanged, so only the first-encountered amount
affects aggregation. -/
theorem dedupe_keeps_first_occurrence :
    (∀ (r : Row) (l : List Row),
       dedupeByKey tidOf (r :: l)
         = r :: dedupeByKey tidOf (l.filter (fun s => decide (tidOf s ≠ tidOf r))))
    ∧ (∀ (l1 l2 : List Row) (dup : Row), tidOf dup ∈ l1.map tidOf →
       dedupeByKey tidOf (l1 ++ dup :: l2) = dedupeByKey tidOf (l1 ++ l2))
    ∧ (∀ (ids : List String) (l1 l2 : List Row) (dup : Row),
       tidOf dup ∈ l1.map tidOf →
       transformDailyMetrics
           ((dedupeByKey tidOf (l1 ++ dup :: l2)).filter (isValidTxn ids))
         = transformDailyMetrics
           ((dedupeByKey tidOf (l1 ++ l2)).filter (isValidTxn ids))) := by
  have h2 : ∀ (l1 l2 : List Row) (dup : Row), tidOf dup ∈ l1.map tidOf →
      dedupeByKey tidOf (l1 ++ dup :: l2) = dedupeByKey tidOf (l1 ++ l2) := by
    intro l1 l2 dup hdup
    exact dedupeAux_insert_dup tidOf [] l1 l2 dup (Or.inr hdup)
  refine ⟨?_, h2, ?_⟩
  · intro r l
    show dedupeAux tidOf [] (r :: l) = _
    simp only [dedupeAux]
    rw [if_neg (List.not_mem_nil _)]
    congr 1
    exact dedupeAux_cons_seen tidOf (tidOf r) [] l
  · intro ids l1 l2 dup hdup
    rw [h2 l1 l2 dup hdup]

theorem dedupe_keeps_first_occurrence_witness :
    transformDailyMetrics
        ((dedupeByKey tidOf (tW.rows ++ dupW :: [])).filter
          (isValidTxn (merchantIdsOf mW)))
      = transformDailyMetrics
        ((dedupeByKey tidOf (tW.rows ++ [])).filter
          (isValidTxn (merchantIdsOf mW))) :=
  dedupe_keeps_first_occurrence.2.2 (merchantIdsOf mW) tW.rows [] dupW (by decide)

/-- C4: for every cleaned transaction table, every group row emitted by
`transformDailyMetrics` satisfies approved + declined = total, because
after validation every row's status is exactly one of APPROVED or
DECLINED. -/
theorem approved_plus_declined_eq_total (m t m2 cdf : DataFrame) (st : RunStats)
    (h : validateAndClean m t = .ok (m2, cdf, st)) :
    ∀ g ∈ (transformDailyMetrics cdf.rows).rows,
      g.approved_txn_count + g.declined_txn_count = g.txn_count := by
  obtain ⟨-, -, -, hcdf, -⟩ := validateAndClean_ok_inv h
  subst hcdf
  intro g hg
  rw [tdm_rows] at hg
  obtain ⟨k, hk, rfl⟩ := List.mem_map.mp hg
  apply countP_split
  intro r hr
  have hrclean : r ∈ cleanRows m t := (List.mem_filter.mp hr).1
  have hv : isValidTxn (merchantIdsOf m) r = true :=
    (List.mem_filter.mp hrclean).2
  have hstat : statusOk r = true := ((isValidTxn_iff _ r).mp hv).1
  refine ⟨hstat, ?_⟩
  cases hA : isApproved r <;> cases hD : isDeclined r <;> try rfl
  exfalso
  have ha : getCell r "status" = "APPROVED" := by simpa [isApproved] using hA
  have hd : getCell r "status" = "DECLINED" := by simpa [isDeclined] using hD
  exact absurd (ha.symm.trans hd) (by decide)

theorem approved_plus_declined_eq_total_witness :
    gW.approved_txn_count + gW.declined_txn_count = gW.txn_count :=
  approved_plus_declined_eq_total mW tW mW tW stW (by decide) gW (by decide)

/-- C5: every group emitted by `transformDailyMetrics` has a positive
transaction count (groups are formed only from existing rows), so the
ratio divisions are well defined, and the approval rate always lies in
[0, 1]. -/
theorem group_count_pos_rate_bounded (clean : List Row) :
    ∀ g ∈ (transformDailyMetrics clean).rows,
      0 < g.txn_count ∧ 0 ≤ g.approval_rate ∧ g.approval_rate ≤ 1 := by
  intro g hg
  rw [tdm_rows] at hg
  obtain ⟨k, hk, rfl⟩ := List.mem_map.mp hg
  have hkmem : k ∈ clean.map groupKey := by
    have h1 := (sortBy_perm keyLE _).mem_iff.mp hk
    exact (mem_dedupeByKey_id _ _).mp h1
  obtain ⟨r, hr, hrk⟩ := List.mem_map.mp hkmem
  have hmem : r ∈ clean.filter (fun s => decide (groupKey s = k)) :=
    List.mem_filter.mpr ⟨hr, by simp [hrk]⟩
  have hpos : 0 < (clean.filter (fun s => decide (groupKey s = k))).length :=
    List.length_pos.mpr (List.ne_nil_of_mem hmem)
  have hle : (clean.filter (fun s => decide (groupKey s = k))).countP isApproved
      ≤ (clean.filter (fun s => decide (groupKey s = k))).length :=
    List.countP_le_length isApproved
  refine ⟨hpos, ?_, ?_⟩
  · show 0 ≤ roundTo 4
      (((clean.filter (fun s => decide (groupKey s = k))).countP isApproved : ℚ)
        / ((clean.filter (fun s => decide (groupKey s = k))).length : ℚ))
    exact roundTo_nonneg (by positivity)
  · show roundTo 4
      (((clean.filter (fun s => decide (groupKey s = k))).countP isApproved : ℚ)
        / ((clean.filter (fun s => decide (groupKey s = k))).length : ℚ)) ≤ 1
    apply roundTo_le_one (by positivity)
    rw [div_le_one (by exact_mod_cast hpos)]
    exact_mod_cast hle

theorem group_count_pos_rate_bounded_witness :
    0 < gW.txn_count ∧ 0 ≤ gW.approval_rate ∧ gW.approval_rate ≤ 1 :=
  group_count_pos_rate_bounded tW.rows gW (by decide)

/-- C6: when the merchant table lacks a required column, or the transaction
table does, `validateAndClean` fails with the schema error naming exactly
the required-and-absent columns of the offending file; the failure depends
only on the column lists (no row is processed) and the whole pipeline run
aborts with the same error, so nothing reaches the loader. -/
theorem schema_error_on_missing_columns (m t : DataFrame) :
    (missingCols requiredMerchCols (m.cols.map strTrim) ≠ [] →
      validateAndClean m t = .error (.schemaError "merchants.csv"
        (missingCols requiredMerchCols (m.cols.map strTrim)))
      ∧ (∀ c, c ∈ missingCols requiredMerchCols (m.cols.map strTrim)
          ↔ c ∈ requiredMerchCols ∧ c ∉ m.cols.map strTrim)
      ∧ (∀ s : Sink, runPipeline m t s = .error (.schemaError "merchants.csv"
          (missingCols requiredMerchCols (m.cols.map strTrim))))
      ∧ (∀ mAlt tAlt : DataFrame, mAlt.cols = m.cols →
          validateAndClean mAlt tAlt = .error (.schemaError "merchants.csv"
            (missingCols requiredMerchCols (m.cols.map strTrim)))))
    ∧ (missingCols requiredMerchCols (m.cols.map strTrim) = [] →
       missingCols requiredTxnCols (t.cols.map strTrim) ≠ [] →
      validateAndClean m t = .error (.schemaError "transactions.csv"
        (missingCols requiredTxnCols (t.cols.map strTrim)))
      ∧ (∀ c, c ∈ missingCols requiredTxnCols (t.cols.map strTrim)
          ↔ c ∈ requiredTxnCols ∧ c ∉ t.cols.map strTrim)
      ∧ (∀ s : Sink, runPipeline m t s = .error (.schemaError "transactions.csv"
          (missingCols requiredTxnCols (t.cols.map strTrim))))
      ∧ (∀ mAlt tAlt : DataFrame, mAlt.cols = m.cols → tAlt.cols = t.cols →
          validateAndClean mAlt tAlt = .error (.schemaError "transactions.csv"
            (missingCols requiredTxnCols (t.cols.map strTrim))))) := by
  constructor
  · intro hM
    refine ⟨validateAndClean_err_merch hM, ?_, ?_, ?_⟩
    · intro c
      simp [missingCols, List.mem_filter]
    · intro s
      exact runPipeline_err s (validateAndClean_err_merch hM)
    · intro mAlt tAlt hc
      have hM2 : missingCols requiredMerchCols (mAlt.cols.map strTrim) ≠ [] := by
        rw [hc]
        exact hM
      rw [validateAndClean_err_merch hM2, hc]
  · intro hM hT
    refine ⟨validateAndClean_err_txn hM hT, ?_, ?_, ?_⟩
    · intro c
      simp [missingCols, List.mem_filter]
    · intro s
      exact runPipeline_err s (validateAndClean_err_txn hM hT)
    · intro mAlt tAlt hcm hct
      have hM2 : missingCols requiredMerchCols (mAlt.cols.map strTrim) = [] := by
        rw [hcm]
        exact hM
      have hT2 : missingCols requiredTxnCols (tAlt.cols.map strTrim) ≠ [] := by
        rw [hct]
        exact hT
      rw [validateAndClean_err_txn hM2 hT2, hct]

theorem schema_error_on_missing_columns_witness :
    validateAndClean mBad tW
      = .error (.schemaError "merchants.csv" ["merchant_name"]) :=
  ((schema_error_on_missing_columns mBad tW).1 (by decide)).1

/-- C7: running the full pipeline twice in sequence against identical,
unchanged input tables leaves the sink state (and the reported statistics)
after the second run equal to those after the first: every MERGE upsert
of the second run overwrites matched rows with identical values and
inserts nothing new.  The no-duplicate hypothesis on the presented
merchant keys reflects SQL MERGE's requirement that the source rows match
each target row at most once. -/
theorem pipeline_idempotent_on_sink (m t : DataFrame) (s s1 : Sink) (st : RunStats)
    (hnd : ((stripCellValues (stripColNames m)).rows.map
      (fun r => (mercEntry r).1)).Nodup)
    (h : runPipeline m t s = .ok (s1, st)) :
    runPipeline m t s1 = .ok (s1, st) := by
  cases hv : validateAndClean m t with
  | error e =>
    rw [runPipeline_err s hv] at h
    exact absurd h (by simp)
  | ok x =>
    obtain ⟨m2, cdf, st0⟩ := x
    obtain ⟨-, -, hm2, -, -⟩ := validateAndClean_ok_inv hv
    rw [runPipeline_ok s hv] at h
    simp only [Except.ok.injEq, Prod.mk.injEq] at h
    obtain ⟨hs1, hst⟩ := h
    subst hs1
    subst hst
    rw [runPipeline_ok _ hv]
    have hndm : ((m2.rows.map mercEntry).map Prod.fst).Nodup := by
      rw [List.map_map, hm2]
      exact hnd
    have hndf : (((transformDailyMetrics cdf.rows).rows.map factEntry).map
        Prod.fst).Nodup := by
      rw [List.map_map]
      exact tdm_keys_nodup cdf.rows
    have h1 := upsertAll_idem (m2.rows.map mercEntry) s.dimMerchants hndm
    have h2 := upsertAll_idem ((transformDailyMetrics cdf.rows).rows.map factEntry)
      s.factDaily hndf
    simp only [Except.ok.injEq, Prod.mk.injEq, Sink.mk.injEq]
    exact ⟨⟨h1, h2⟩, trivial⟩

theorem pipeline_idempotent_on_sink_witness :
    runPipeline mW tW s1W = .ok (s1W, stFullW) :=
  pipeline_idempotent_on_sink mW tW emptySink s1W stFullW (by decide) (by decide)

/-- C8: for the concrete one-merchant scenario with an approved 10.00
transaction and a declined 20.00 transaction on 2026-01-01,
`validateAndClean` keeps both rows and `transformDailyMetrics` produces
exactly one output row with txn_count 2, one approved and one declined,
gross 30, approved amount 10, approval rate 0.5 and average ticket 15. -/
theorem end_to_end_single_merchant_scenario :
    validateAndClean mW tW = .ok (mW, tW, stW)
    ∧ transformDailyMetrics tW.rows
      = ⟨["metric_date", "merchant_id", "txn_count", "approved_txn_count",
          "declined_txn_count", "gross_amount", "approved_amount",
          "approval_rate", "avg_ticket"],
         [{ metric_date := daysFromCivil 2026 1 1, merchant_id := "m1",
            txn_count := 2, approved_txn_count := 1, declined_txn_count := 1,
            gross_amount := 30, approved_amount := 10,
            approval_rate := 1 / 2, avg_ticket := 15 }]⟩ := by
  constructor
  · decide
  · decide

/-- C9: `validateAndClean` hands back the whitespace-trimmed merchant table
(the in-place mutation of the caller's DataFrame, modelled by explicit
state passing), and the run coordinator passes exactly that table to the
merchant loader: every merchant dimension row of the post-run sink is
either a pre-existing row or derived from a whitespace-trimmed input
row. -/
theorem loader_sees_trimmed_merchants (m t : DataFrame) (s s1 : Sink) (st : RunStats)
    (h : runPipeline m t s = .ok (s1, st)) :
    ∀ p ∈ s1.dimMerchants,
      p ∈ s.dimMerchants ∨ p ∈ m.rows.map (fun r => mercEntry (stripRow r)) := by
  cases hv : validateAndClean m t with
  | error e =>
    rw [runPipeline_err s hv] at h
    exact absurd h (by simp)
  | ok x =>
    obtain ⟨m2, cdf, st0⟩ := x
    obtain ⟨-, -, hm2, -, -⟩ := validateAndClean_ok_inv hv
    rw [runPipeline_ok s hv] at h
    simp only [Except.ok.injEq, Prod.mk.injEq] at h
    obtain ⟨hs1, -⟩ := h
    subst hs1
    intro p hp
    have hp2 : p ∈ upsertAll s.dimMerchants (m2.rows.map mercEntry) := hp
    rcases mem_upsertAll hp2 with h1 | h1
    · exact Or.inl h1
    · right
      rw [hm2, strip_rows_eq, List.map_map] at h1
      exact h1

theorem loader_sees_trimmed_merchants_witness :
    ("m1", (⟨some "Shop One", none, none, none⟩ : MerchantDim))
        ∈ emptySink.dimMerchants
    ∨ ("m1", (⟨some "Shop One", none, none, none⟩ : MerchantDim))
        ∈ mW.rows.map (fun r => mercEntry (stripRow r)) :=
  loader_sees_trimmed_merchants mW tW emptySink s1W stFullW (by decide)
    ("m1", ⟨some "Shop One", none, none, none⟩) (by decide)

/-- C10: for a transaction table with all required columns but zero rows,
`validateAndClean` succeeds with an empty cleaned table and all four
transaction counters equal to 0, and `transformDailyMetrics` on the empty
table emits zero rows. -/
theorem empty_transactions_ok (m : DataFrame) (tcols : List String)
    (hM : missingCols requiredMerchCols (m.cols.map strTrim) = [])
    (hT : missingCols requiredTxnCols (tcols.map strTrim) = []) :
    validateAndClean m ⟨tcols, []⟩
      = .ok (stripCellValues (stripColNames m), ⟨tcols.map strTrim, []⟩,
             ⟨0, 0, 0, 0, 0, 0, 0⟩)
    ∧ (transformDailyMetrics ([] : List Row)).rows = [] := by
  constructor
  · unfold validateAndClean
    rw [if_neg (by simp [hM]), if_neg (by simp [hT])]
    rfl
  · rfl

theorem empty_transactions_ok_witness :
    validateAndClean mW ⟨tW.cols, []⟩
      = .ok (stripCellValues (stripColNames mW), ⟨tW.cols.map strTrim, []⟩,
             ⟨0, 0, 0, 0, 0, 0, 0⟩)
    ∧ (transformDailyMetrics ([] : List Row)).rows = [] :=
  empty_transactions_ok mW tW.cols (by decide) (by decide)
